import Mathlib

/-!
Shallow embedding of `archai/algos/divnas/divop.py` (class `DivOp`), the
mixture-of-operations node with diversity-aware activation capture.

Tensors are modelled as values of an abstract input type mapped to real
scalars; `detach`/`cpu`/`numpy` are identities on the modelled values.
Python `assert` failures and `IndexError` are modelled with an explicit
error type, and Python's negative-index wraparound semantics for list
subscripts is modelled faithfully by `pyGet`.
-/

namespace DivNas

/-- The fixed primitive catalog (`DivOp.PRIMITIVES`); the no-op entry is last. -/
def PRIMITIVES : List String :=
  ["max_pool_3x3", "avg_pool_3x3", "skip_connect", "sep_conv_3x3",
   "sep_conv_5x5", "dil_conv_3x3", "dil_conv_5x5", "none"]

/-- Primitives excluded from diversity calculation (`DivOp.NOTALLOWED`). -/
def NOTALLOWED : List String := ["none"]

/-- `DivOp._indices_of_notallowed`: for each excluded name, its position in the
catalog (Python `list.index`), sorted in descending order. -/
def indicesOfNotallowed (catalog notallowed : List String) : List Nat :=
  (notallowed.map (fun n => catalog.indexOf n)).mergeSort (fun a b => decide (b ≤ a))

/-- `DivOp._create_mapping_valid_to_orig`: positions of catalog entries whose
name is not excluded, in catalog (ascending) order. -/
def createMappingValidToOrig (catalog notallowed : List String) : List Nat :=
  ((catalog.enum.filter (fun p => decide (p.2 ∉ notallowed))).map Prod.fst)

/-- `DivOp.num_valid_div_ops`: `len(PRIMITIVES) - len(NOTALLOWED)`. -/
def numValidDivOps (catalog notallowed : List String) : Nat :=
  catalog.length - notallowed.length

/-- Errors surfacing from the embedded Python code: a failed `assert`, a list
subscript out of range, and `raise NotImplementedError`. -/
inductive PyErr where
  | assertionError : PyErr
  | indexError : PyErr
  | notImplementedError : PyErr
deriving DecidableEq, Repr

/-- Python list subscript `l[i]` for a possibly negative `i`: a negative index
counts from the end; out-of-bounds raises `IndexError`. -/
def pyGet {α : Type _} (l : List α) (i : Int) : Except PyErr α :=
  let j : Int := if i < 0 then (l.length : Int) + i else i
  if h : 0 ≤ j ∧ j < (l.length : Int) then
    .ok (l.get ⟨j.toNat, by omega⟩)
  else
    .error .indexError

/-- `DivOp.get_op_desc`: `assert index < len(PRIMITIVES)` then finalize the
sub-operation at `self._ops[index]`.  The finalized descriptor of the
sub-operation built for a primitive name is `fin name` (finalization is an
external capability of each sub-operation). -/
def getOpDesc {D : Type _} (fin : String → D) (index : Int) : Except PyErr D :=
  if index < (PRIMITIVES.length : Int) then
    pyGet (PRIMITIVES.map fin) index
  else
    .error .assertionError

/-- `DivOp.get_valid_op_desc`: `assert index <= self.num_valid_div_ops`, then
translate through `self._valid_to_orig` and finalize at the original index. -/
def getValidOpDesc {D : Type _} (fin : String → D) (index : Int) : Except PyErr D :=
  if index ≤ (numValidDivOps PRIMITIVES NOTALLOWED : Int) then
    match pyGet (createMappingValidToOrig PRIMITIVES NOTALLOWED) index with
    | .ok orig => pyGet (PRIMITIVES.map fin) (orig : Int)
    | .error e => .error e
  else
    .error .assertionError

/-- The mutable per-node state of a `DivOp` instance.  A mixture-weight
parameter is a real vector (`List ℝ`); `alphas` is `none` in unweighted
(`noalpha`) mode and otherwise holds the list `self._alphas` of parameter
vectors.  Each sub-operation is a function from the input type to a real
scalar. -/
structure DivOpState (ι : Type _) where
  alphas : Option (List (List ℝ))
  ops : List (ι → ℝ)
  collectActivations : Bool
  forwardCounter : Nat
  batchActivs : Option (List ℝ)
  notAllowedIndices : List Nat
  validToOrig : List Nat

/-- Python truthiness of `self._alphas` (`None` and the empty list are falsy). -/
def alphasTruthy : Option (List (List ℝ)) → Bool
  | none => false
  | some l => !l.isEmpty

/-- Softmax normalization of a weight vector (`F.softmax(self._alphas[0], dim=0)`),
in exact real arithmetic. -/
noncomputable def softmax (v : List ℝ) : List ℝ :=
  v.map (fun z => Real.exp z / (v.map Real.exp).sum)

/-- The `activations` property: the capture buffer (`self._batch_activs`). -/
def activations {ι : Type _} (s : DivOpState ι) : Option (List ℝ) :=
  s.batchActivs

/-- The `collect_activations` property setter. -/
def setCollectActivations {ι : Type _} (s : DivOpState ι) (b : Bool) : DivOpState ι :=
  { s with collectActivations := b }

/-- `DivOp.forward`.  Returns the updated state, the mixture output, and the
trace of sub-operation evaluations performed by the call (the catalog index of
each application of a sub-operation to the input, in execution order).

With capture enabled, the call first evaluates every sub-operation to fill
`activs`, detaches each result (identity here) into `self._batch_activs`, and
deletes the excluded positions by the descending skip-index list; the mixture
result is then computed by a second evaluation of every sub-operation
(`op(x)` inside the `sum`), exactly as the Python source does. -/
noncomputable def forward {ι : Type _} (s : DivOpState ι) (x : ι) :
    DivOpState ι × ℝ × List Nat :=
  let step1 : DivOpState ι × List Nat :=
    if s.collectActivations then
      let activs := s.ops.map (fun op => op x)
      let batch := s.notAllowedIndices.foldl (fun l i => l.eraseIdx i) activs
      ({ s with forwardCounter := s.forwardCounter + 1, batchActivs := some batch },
       List.range s.ops.length)
    else
      (s, [])
  let step2 : ℝ × List Nat :=
    if alphasTruthy s.alphas then
      let a := (s.alphas.getD []).headD []
      let asm := softmax a
      (((asm.zip s.ops).map (fun p => p.1 * p.2 x)).sum,
       List.range (min asm.length s.ops.length))
    else
      ((s.ops.map (fun op => op x)).sum, List.range s.ops.length)
  (step1.1, step2.1, step1.2 ++ step2.2)

/-- `DivOp._set_alphas`: asserts the node has no registered parameters yet
(`len(list(self.parameters())) == 0`), keeps a caller-supplied nonempty weight
list, and otherwise self-allocates one parameter vector of length
`len(PRIMITIVES)` whose entries scale a standard-normal draw `r` by `1.0e-3`. -/
def setAlphasModel (numParamsSoFar : Nat) (supplied : List (List ℝ))
    (r : Nat → ℝ) : Except PyErr (List (List ℝ)) :=
  if numParamsSoFar ≠ 0 then
    .error .assertionError
  else if supplied.isEmpty then
    .ok [(List.range PRIMITIVES.length).map (fun i => (1e-3 : ℝ) * r i)]
  else
    .ok supplied

/-- `DivOp.__init__`: asserts the catalog ends with the no-op, raises
`NotImplementedError` on the unsupported `noalpha`/`default` combination, sets
the mixture weights (before any sub-operation is registered, so the parameter
count seen by `_set_alphas` is `0`), builds one sub-operation per catalog entry
through the external factory, and initializes the diversity bookkeeping. -/
def divOpInit {ι : Type _} (trainer finalizer : String)
    (supplied : List (List ℝ)) (r : Nat → ℝ) (factory : String → ι → ℝ) :
    Except PyErr (DivOpState ι) :=
  if PRIMITIVES.getLast? ≠ some ("none") then
    .error .assertionError
  else if trainer = "noalpha" ∧ finalizer = "default" then
    .error .notImplementedError
  else
    let alphasE : Except PyErr (Option (List (List ℝ))) :=
      if trainer ≠ "noalpha" then
        (setAlphasModel 0 supplied r).map some
      else
        .ok none
    alphasE.bind (fun al =>
      .ok { alphas := al
            ops := PRIMITIVES.map factory
            collectActivations := false
            forwardCounter := 0
            batchActivs := none
            notAllowedIndices := indicesOfNotallowed PRIMITIVES NOTALLOWED
            validToOrig := createMappingValidToOrig PRIMITIVES NOTALLOWED })

/-! ## Helper lemmas -/

/-- A list of length eight is a literal eight-element list. -/
lemma exists_eight {α : Type _} (l : List α) (hl : l.length = 8) :
    ∃ a b c d e f g h, l = [a, b, c, d, e, f, g, h] := by
  rcases l with _ | ⟨a, _ | ⟨b, _ | ⟨c, _ | ⟨d, _ | ⟨e, _ | ⟨f, _ | ⟨g, _ | ⟨h, _ | ⟨i, t⟩⟩⟩⟩⟩⟩⟩⟩⟩ <;>
    simp_all

/-- The exponentials of a nonempty weight vector have positive sum. -/
lemma exp_sum_pos (v : List ℝ) (hv : v ≠ []) : 0 < (v.map Real.exp).sum := by
  refine List.sum_pos _ ?_ ?_
  · intro x hx
    obtain ⟨z, _, rfl⟩ := List.mem_map.mp hx
    exact Real.exp_pos z
  · simpa using hv

/-- The softmax-normalized weights of a nonempty vector sum to one. -/
lemma softmax_sum_one (v : List ℝ) (hv : v ≠ []) : (softmax v).sum = 1 := by
  have hpos := exp_sum_pos v hv
  unfold softmax
  have hfun : (fun z => Real.exp z / (v.map Real.exp).sum)
      = fun z => Real.exp z * ((v.map Real.exp).sum)⁻¹ := by
    funext z; rw [div_eq_mul_inv]
  rw [hfun, List.sum_map_mul_right, mul_inv_cancel₀ (ne_of_gt hpos)]

/-- Every softmax-normalized weight is positive. -/
lemma softmax_pos (v : List ℝ) (w : ℝ) (hw : w ∈ softmax v) : 0 < w := by
  unfold softmax at hw
  obtain ⟨z, hz, rfl⟩ := List.mem_map.mp hw
  have hv : v ≠ [] := by
    intro h; subst h; simp at hz
  exact div_pos (Real.exp_pos z) (exp_sum_pos v hv)

/-- `valid_to_orig` is strictly increasing for every catalog and excluded set:
it is a sublist of `range (len catalog)`. -/
lemma createMapping_pairwise (catalog notallowed : List String) :
    (createMappingValidToOrig catalog notallowed).Pairwise (· < ·) := by
  unfold createMappingValidToOrig
  have h1 : (catalog.enum.filter (fun p => decide (p.2 ∉ notallowed))).Sublist catalog.enum :=
    List.filter_sublist _
  have h2 := h1.map Prod.fst
  rw [List.enum_map_fst] at h2
  exact List.Pairwise.sublist h2 (List.pairwise_lt_range _)

/-- Counting membership in `n :: na` splits into the count of `n` and the count
of membership in `na` when `n ∉ na`. -/
lemma countP_mem_cons (l : List String) (n : String) (na : List String) (hn : n ∉ na) :
    l.countP (fun s => decide (s ∈ n :: na)) =
      l.count n + l.countP (fun s => decide (s ∈ na)) := by
  induction l with
  | nil => simp
  | cons a t ih =>
    by_cases h1 : a = n <;> by_cases h2 : a ∈ na <;>
      simp_all [List.countP_cons, List.count_cons] <;> omega

/-- If the excluded names are distinct and each occurs exactly once in the
catalog, the catalog positions carrying an excluded name number exactly
`len notallowed`. -/
lemma countP_mem_eq (l na : List String) (hnd : na.Nodup)
    (hc : ∀ n ∈ na, l.count n = 1) :
    l.countP (fun s => decide (s ∈ na)) = na.length := by
  induction na with
  | nil => simp
  | cons n na2 ih =>
    rw [countP_mem_cons l n na2 (List.nodup_cons.mp hnd).1]
    rw [hc n (List.mem_cons_self n na2)]
    rw [ih (List.nodup_cons.mp hnd).2 (fun m hm => hc m (List.mem_cons_of_mem _ hm))]
    simp [Nat.add_comm]

/-- Counting on an enumerated list by a predicate on the entry equals counting
on the underlying list. -/
lemma countP_snd_enumFrom (q : String → Bool) :
    ∀ (n : Nat) (l : List String),
      (List.enumFrom n l).countP (fun p => q p.2) = l.countP q := by
  intro n l
  induction l generalizing n with
  | nil => simp
  | cons a t ih => simp [List.enumFrom, List.countP_cons, ih]

/-- Positions not carrying an excluded name and positions carrying one
partition the catalog. -/
lemma countP_notmem_add_countP_mem (notallowed : List String) (l : List String) :
    l.countP (fun s => decide (s ∉ notallowed))
      + l.countP (fun s => decide (s ∈ notallowed)) = l.length := by
  induction l with
  | nil => simp
  | cons a t iht =>
    rw [List.countP_cons, List.countP_cons]
    by_cases h : a ∈ notallowed
    · rw [if_neg (by simp [h]), if_pos (by simp [h])]
      simp only [Nat.add_zero, List.length_cons]
      omega
    · rw [if_pos (by simp [h]), if_neg (by simp [h])]
      simp only [Nat.add_zero, List.length_cons]
      omega

/-- Length of `valid_to_orig` under the occurrence side conditions. -/
lemma createMapping_length (catalog notallowed : List String) (hnd : notallowed.Nodup)
    (hc : ∀ n ∈ notallowed, catalog.count n = 1) :
    (createMappingValidToOrig catalog notallowed).length =
      catalog.length - notallowed.length := by
  unfold createMappingValidToOrig
  rw [List.length_map, ← List.countP_eq_length_filter]
  have he : (catalog.enum.countP (fun p => decide (p.2 ∉ notallowed)))
      = catalog.countP (fun s => decide (s ∉ notallowed)) := by
    have := countP_snd_enumFrom (fun s => decide (s ∉ notallowed)) 0 catalog
    simpa [List.enum] using this
  rw [he]
  have hsplit := countP_notmem_add_countP_mem notallowed catalog
  have hmem := countP_mem_eq catalog notallowed hnd hc
  omega

/-- The concrete skip-index list of the shipped configuration. -/
lemma indicesOfNotallowed_concrete : indicesOfNotallowed PRIMITIVES NOTALLOWED = [7] := by
  simp [indicesOfNotallowed, PRIMITIVES, NOTALLOWED, List.indexOf]
  rfl

/-- A sample sub-operation factory over scalar inputs, used to instantiate the
universally quantified theorems at a concrete node. -/
def idFactory : String → ℝ → ℝ := fun _ => fun x => x

/-- A concrete weighted-mode node state over scalar inputs, as built by
construction with self-allocated weights drawn as zeros. -/
def sampleWeighted : DivOpState ℝ :=
  { alphas := some [List.replicate 8 (0 : ℝ)]
    ops := PRIMITIVES.map idFactory
    collectActivations := false
    forwardCounter := 0
    batchActivs := none
    notAllowedIndices := indicesOfNotallowed PRIMITIVES NOTALLOWED
    validToOrig := createMappingValidToOrig PRIMITIVES NOTALLOWED }

/-- A concrete unweighted-mode node state over scalar inputs with capture
enabled. -/
def sampleCapture : DivOpState ℝ :=
  { alphas := none
    ops := PRIMITIVES.map idFactory
    collectActivations := true
    forwardCounter := 0
    batchActivs := none
    notAllowedIndices := indicesOfNotallowed PRIMITIVES NOTALLOWED
    validToOrig := createMappingValidToOrig PRIMITIVES NOTALLOWED }

/-- Fields of any successfully constructed node: sub-operations in catalog
order, capture initially off, counter zero, empty capture buffer, the derived
index bookkeeping, and the mixture weights according to the training mode. -/
lemma divOpInit_ok {ι : Type} (trainer finalizer : String)
    (supplied : List (List ℝ)) (r : Nat → ℝ) (factory : String → ι → ℝ)
    (s : DivOpState ι)
    (h : divOpInit trainer finalizer supplied r factory = .ok s) :
    s.ops = PRIMITIVES.map factory
    ∧ s.collectActivations = false
    ∧ s.forwardCounter = 0
    ∧ s.batchActivs = none
    ∧ s.notAllowedIndices = indicesOfNotallowed PRIMITIVES NOTALLOWED
    ∧ s.validToOrig = createMappingValidToOrig PRIMITIVES NOTALLOWED
    ∧ (trainer ≠ "noalpha" → supplied = [] →
        s.alphas = some [(List.range PRIMITIVES.length).map (fun i => (1e-3 : ℝ) * r i)])
    ∧ (trainer = "noalpha" → s.alphas = none) := by
  have hlast : PRIMITIVES.getLast? = some ("none") := rfl
  by_cases h1 : trainer = "noalpha" ∧ finalizer = "default"
  · simp [divOpInit, h1, hlast] at h
  · by_cases h2 : trainer = "noalpha"
    · have h4 : ¬ finalizer = "default" := fun hf => h1 ⟨h2, hf⟩
      simp [divOpInit, h2, h4, hlast, Except.bind] at h
      subst h
      simp [h2]
    · by_cases h3 : supplied.isEmpty
      · simp [divOpInit, h1, h2, h3, setAlphasModel, hlast, Except.bind, Except.map] at h
        subst h
        simp [h2, List.isEmpty_iff.mp h3]
      · simp [divOpInit, h1, h2, h3, setAlphasModel, hlast, Except.bind, Except.map] at h
        subst h
        simp_all [List.isEmpty_iff]

/-! ## Claim theorems -/

/-- Claim C1: in weighted mode (mixture weights present), for every input `x`,
`forward` returns the weight-normalized sum over all catalog entries
(including the no-op) `∑ i, softmax(alpha)_i * op_i(x)`, and the
softmax-normalized weights are all positive and sum to `1`. -/
theorem C1_weighted_forward {ι : Type} (s : DivOpState ι) (x : ι)
    (factory : String → ι → ℝ) (a : List ℝ) (rest : List (List ℝ))
    (hops : s.ops = PRIMITIVES.map factory)
    (ha : s.alphas = some (a :: rest))
    (hlen : a.length = PRIMITIVES.length) :
    (forward s x).2.1 =
      ∑ i ∈ Finset.range PRIMITIVES.length,
        (softmax a).getD i 0 * factory (PRIMITIVES.getD i ("")) x
    ∧ (∀ w ∈ softmax a, 0 < w) ∧ (softmax a).sum = 1 := by
  refine ⟨?_, fun w hw => softmax_pos a w hw,
    softmax_sum_one a (by intro h; subst h; simp [PRIMITIVES] at hlen)⟩
  obtain ⟨a0, a1, a2, a3, a4, a5, a6, a7, rfl⟩ :=
    exists_eight a (by simpa [PRIMITIVES] using hlen)
  simp [forward, ha, hops, alphasTruthy, PRIMITIVES, softmax, Finset.sum_range_succ]
  ring

/-- Witness for C1 at a concrete weighted node (uniform zero weights, identity
sub-operations, input `1`). -/
theorem C1_weighted_forward_witness :
    sampleWeighted.ops = PRIMITIVES.map idFactory
    ∧ sampleWeighted.alphas = some (List.replicate 8 (0 : ℝ) :: [])
    ∧ (List.replicate 8 (0 : ℝ)).length = PRIMITIVES.length
    ∧ ((forward sampleWeighted 1).2.1 =
        ∑ i ∈ Finset.range PRIMITIVES.length,
          (softmax (List.replicate 8 (0 : ℝ))).getD i 0
            * idFactory (PRIMITIVES.getD i ("")) 1
       ∧ (∀ w ∈ softmax (List.replicate 8 (0 : ℝ)), 0 < w)
       ∧ (softmax (List.replicate 8 (0 : ℝ))).sum = 1) :=
  ⟨rfl, rfl, by simp [PRIMITIVES],
    C1_weighted_forward sampleWeighted 1 idFactory (List.replicate 8 (0 : ℝ)) []
      rfl rfl (by simp [PRIMITIVES])⟩

/-- Claim C2: with capture enabled, one forward call fills the capture buffer
with exactly `len(catalog) - len(excluded)` entries in ascending
original-catalog-index order and increments the call counter by one; with
capture disabled, a forward call leaves both the counter and the buffer
unchanged. -/
theorem C2_capture_buffer {ι : Type} (s : DivOpState ι) (x : ι)
    (factory : String → ι → ℝ)
    (hops : s.ops = PRIMITIVES.map factory)
    (hnai : s.notAllowedIndices = indicesOfNotallowed PRIMITIVES NOTALLOWED) :
    (s.collectActivations = true →
      (forward s x).1.batchActivs =
          some ((createMappingValidToOrig PRIMITIVES NOTALLOWED).map
            (fun i => factory (PRIMITIVES.getD i ("")) x))
      ∧ ((createMappingValidToOrig PRIMITIVES NOTALLOWED).map
            (fun i => factory (PRIMITIVES.getD i ("")) x)).length
          = PRIMITIVES.length - NOTALLOWED.length
      ∧ (createMappingValidToOrig PRIMITIVES NOTALLOWED).Pairwise (· < ·)
      ∧ (forward s x).1.forwardCounter = s.forwardCounter + 1)
    ∧ (s.collectActivations = false →
        (forward s x).1.forwardCounter = s.forwardCounter
        ∧ (forward s x).1.batchActivs = s.batchActivs) := by
  have h7 : s.notAllowedIndices = [7] := by rw [hnai, indicesOfNotallowed_concrete]
  constructor
  · intro hc
    refine ⟨?_, by rw [List.length_map]; decide,
      createMapping_pairwise PRIMITIVES NOTALLOWED, by simp [forward, hc]⟩
    simp [forward, hc, hops, h7, PRIMITIVES, NOTALLOWED, createMappingValidToOrig,
      List.eraseIdx, List.enum, List.enumFrom, List.filter]
  · intro hc
    exact ⟨by simp [forward, hc], by simp [forward, hc]⟩

/-- Witness for C2 at a concrete capturing node (identity sub-operations,
input `1`). -/
theorem C2_capture_buffer_witness :
    sampleCapture.ops = PRIMITIVES.map idFactory
    ∧ sampleCapture.notAllowedIndices = indicesOfNotallowed PRIMITIVES NOTALLOWED
    ∧ ((sampleCapture.collectActivations = true →
        (forward sampleCapture 1).1.batchActivs =
            some ((createMappingValidToOrig PRIMITIVES NOTALLOWED).map
              (fun i => idFactory (PRIMITIVES.getD i ("")) 1))
        ∧ ((createMappingValidToOrig PRIMITIVES NOTALLOWED).map
              (fun i => idFactory (PRIMITIVES.getD i ("")) 1)).length
            = PRIMITIVES.length - NOTALLOWED.length
        ∧ (createMappingValidToOrig PRIMITIVES NOTALLOWED).Pairwise (· < ·)
        ∧ (forward sampleCapture 1).1.forwardCounter
            = sampleCapture.forwardCounter + 1)
      ∧ (sampleCapture.collectActivations = false →
          (forward sampleCapture 1).1.forwardCounter = sampleCapture.forwardCounter
          ∧ (forward sampleCapture 1).1.batchActivs = sampleCapture.batchActivs)) :=
  ⟨rfl, rfl, C2_capture_buffer sampleCapture 1 idFactory rfl rfl⟩

/-- Claim C3 (code bug): the descriptor query by full-catalog index accepts
the negative index `-1` (the `assert index < len(PRIMITIVES)` guard has no
lower bound) and silently wraps around to the last catalog entry, the no-op,
instead of failing; and the descriptor query by diversity-eligible index
accepts `index = num_valid_div_ops` (the guard uses `<=` instead of `<`) and
then crashes with an index error from `_valid_to_orig` rather than failing
the range assertion; a negative valid index likewise wraps around silently. -/
theorem C3_range_check_gaps :
    getOpDesc (fun s => s) (-1) = .ok ("none")
    ∧ getValidOpDesc (fun s => s) ((numValidDivOps PRIMITIVES NOTALLOWED : Nat) : Int)
        = .error .indexError
    ∧ getValidOpDesc (fun s => s) (-1) = .ok ("dil_conv_5x5")
    ∧ numValidDivOps PRIMITIVES NOTALLOWED = 7 :=
  ⟨rfl, rfl, rfl, rfl⟩

/-- Counterexample to claim C4 as stated: at a concrete capturing node
(identity sub-operations, input `1`), sub-operation `0` is applied twice in a
single forward call — once to fill the capture buffer and once inside the
mixture sum — not exactly once. -/
theorem C4_counterexample :
    ¬ ((forward sampleCapture 1).2.2.count 0 = 1)
    ∧ (forward sampleCapture 1).2.2.count 0 = 2 := by
  have h : (forward sampleCapture 1).2.2 = List.range 8 ++ List.range 8 := by
    simp [forward, sampleCapture, alphasTruthy, PRIMITIVES, idFactory]
  refine ⟨?_, ?_⟩ <;> rw [h] <;> decide

/-- Claim C4 as amended: when capture is enabled, each sub-operation is
evaluated exactly twice per forward call (once for the capture buffer and once
more inside the mixture sum), in both unweighted and weighted mode; the values
stored (detached) into the capture buffer equal the corresponding
sub-operation outputs consumed by the mixture sum, since both evaluations
apply the same sub-operation to the same input. -/
theorem C4_amended {ι : Type} (s : DivOpState ι) (x : ι)
    (factory : String → ι → ℝ)
    (hops : s.ops = PRIMITIVES.map factory)
    (hnai : s.notAllowedIndices = indicesOfNotallowed PRIMITIVES NOTALLOWED)
    (hc : s.collectActivations = true) :
    (alphasTruthy s.alphas = false →
        (forward s x).2.2 = List.range PRIMITIVES.length ++ List.range PRIMITIVES.length
        ∧ ∀ i < PRIMITIVES.length, (forward s x).2.2.count i = 2)
    ∧ (∀ (a : List ℝ) (rest : List (List ℝ)),
        s.alphas = some (a :: rest) → a.length = PRIMITIVES.length →
        (forward s x).2.2 = List.range PRIMITIVES.length ++ List.range PRIMITIVES.length
        ∧ ∀ i < PRIMITIVES.length, (forward s x).2.2.count i = 2)
    ∧ (forward s x).1.batchActivs =
        some ((createMappingValidToOrig PRIMITIVES NOTALLOWED).map
          (fun i => factory (PRIMITIVES.getD i ("")) x)) := by
  have h7 : s.notAllowedIndices = [7] := by rw [hnai, indicesOfNotallowed_concrete]
  have hcount : ∀ i < PRIMITIVES.length, ((List.range 8 ++ List.range 8).count i = 2) := by
    intro i hi
    rw [List.count_append]
    have h1 : (List.range 8).count i = 1 :=
      List.count_eq_one_of_mem (List.nodup_range 8)
        (List.mem_range.mpr (by simpa [PRIMITIVES] using hi))
    omega
  refine ⟨?_, ?_, ?_⟩
  · intro ha
    have htr : (forward s x).2.2 = List.range 8 ++ List.range 8 := by
      simp [forward, hc, ha, hops, PRIMITIVES]
    exact ⟨by simpa [PRIMITIVES] using htr, fun i hi => by rw [htr]; exact hcount i hi⟩
  · intro a rest ha hlen
    have htr : (forward s x).2.2 = List.range 8 ++ List.range 8 := by
      simp [forward, hc, ha, hops, alphasTruthy, softmax, PRIMITIVES, hlen]
    exact ⟨by simpa [PRIMITIVES] using htr, fun i hi => by rw [htr]; exact hcount i hi⟩
  · simp [forward, hc, hops, h7, PRIMITIVES, NOTALLOWED, createMappingValidToOrig,
      List.eraseIdx, List.enum, List.enumFrom, List.filter]

/-- Witness for the amended C4 at a concrete capturing node. -/
theorem C4_amended_witness :
    sampleCapture.ops = PRIMITIVES.map idFactory
    ∧ sampleCapture.notAllowedIndices = indicesOfNotallowed PRIMITIVES NOTALLOWED
    ∧ sampleCapture.collectActivations = true
    ∧ ((alphasTruthy sampleCapture.alphas = false →
        (forward sampleCapture 1).2.2
            = List.range PRIMITIVES.length ++ List.range PRIMITIVES.length
        ∧ ∀ i < PRIMITIVES.length, (forward sampleCapture 1).2.2.count i = 2)
      ∧ (∀ (a : List ℝ) (rest : List (List ℝ)),
          sampleCapture.alphas = some (a :: rest) → a.length = PRIMITIVES.length →
          (forward sampleCapture 1).2.2
              = List.range PRIMITIVES.length ++ List.range PRIMITIVES.length
          ∧ ∀ i < PRIMITIVES.length, (forward sampleCapture 1).2.2.count i = 2)
      ∧ (forward sampleCapture 1).1.batchActivs =
          some ((createMappingValidToOrig PRIMITIVES NOTALLOWED).map
            (fun i => idFactory (PRIMITIVES.getD i ("")) 1))) :=
  ⟨rfl, rfl, rfl, C4_amended sampleCapture 1 idFactory rfl rfl rfl⟩

/-- Counterexample to claim C5 as stated: for the configuration with catalog
`["none", "none"]` (which passes the constructor's last-entry check) and
excluded set `["none"]`, the derived mapping is empty, so its length `0`
differs from `len(catalog) - len(excluded) = 1`. -/
theorem C5_counterexample :
    ¬ ((createMappingValidToOrig (["none", "none"]) (["none"])).length
        = (["none", "none"] : List String).length - (["none"] : List String).length) := by
  decide

/-- Claim C5 as amended: `valid_to_orig` is strictly increasing for every
configuration of catalog and excluded set; its length equals
`len(catalog) - len(excluded)` whenever the excluded names are pairwise
distinct and each occurs exactly once in the catalog (as in the shipped
configuration); the exposed eligible-entry count always equals
`len(catalog) - len(excluded)`; and the mapping is set at construction and is
never mutated by forward calls or by toggling capture. -/
theorem C5_amended (catalog notallowed : List String) (hnd : notallowed.Nodup)
    (hc : ∀ n ∈ notallowed, catalog.count n = 1) :
    (createMappingValidToOrig catalog notallowed).Pairwise (· < ·)
    ∧ (createMappingValidToOrig catalog notallowed).length
        = catalog.length - notallowed.length
    ∧ numValidDivOps catalog notallowed = catalog.length - notallowed.length
    ∧ (∀ (ι : Type) (s : DivOpState ι) (x : ι),
        (forward s x).1.validToOrig = s.validToOrig)
    ∧ (∀ (ι : Type) (s : DivOpState ι) (b : Bool),
        (setCollectActivations s b).validToOrig = s.validToOrig)
    ∧ (∀ (ι : Type) (trainer finalizer : String) (supplied : List (List ℝ))
        (r : Nat → ℝ) (factory : String → ι → ℝ) (s : DivOpState ι),
        divOpInit trainer finalizer supplied r factory = .ok s →
          s.validToOrig = createMappingValidToOrig PRIMITIVES NOTALLOWED) := by
  refine ⟨createMapping_pairwise catalog notallowed,
    createMapping_length catalog notallowed hnd hc, rfl, ?_, fun ι s b => rfl, ?_⟩
  · intro ι s x
    by_cases hcoll : s.collectActivations <;> simp [forward, hcoll]
  · intro ι trainer finalizer supplied r factory s h
    exact (divOpInit_ok trainer finalizer supplied r factory s h).2.2.2.2.2.1

/-- Witness for the amended C5 at the shipped configuration. -/
theorem C5_amended_witness :
    NOTALLOWED.Nodup
    ∧ (∀ n ∈ NOTALLOWED, PRIMITIVES.count n = 1)
    ∧ ((createMappingValidToOrig PRIMITIVES NOTALLOWED).Pairwise (· < ·)
      ∧ (createMappingValidToOrig PRIMITIVES NOTALLOWED).length
          = PRIMITIVES.length - NOTALLOWED.length
      ∧ numValidDivOps PRIMITIVES NOTALLOWED = PRIMITIVES.length - NOTALLOWED.length
      ∧ (∀ (ι : Type) (s : DivOpState ι) (x : ι),
          (forward s x).1.validToOrig = s.validToOrig)
      ∧ (∀ (ι : Type) (s : DivOpState ι) (b : Bool),
          (setCollectActivations s b).validToOrig = s.validToOrig)
      ∧ (∀ (ι : Type) (trainer finalizer : String) (supplied : List (List ℝ))
          (r : Nat → ℝ) (factory : String → ι → ℝ) (s : DivOpState ι),
          divOpInit trainer finalizer supplied r factory = .ok s →
            s.validToOrig = createMappingValidToOrig PRIMITIVES NOTALLOWED)) :=
  ⟨by decide, by decide, C5_amended PRIMITIVES NOTALLOWED (by decide) (by decide)⟩

/-- Claim C6: for every eligible index `i`, fetching the finalized descriptor
by diversity-eligible index `i` equals fetching the finalized descriptor by
full-catalog index `valid_to_orig[i]`. -/
theorem C6_valid_desc_translation {D : Type} (fin : String → D) (i : Nat)
    (hi : i < numValidDivOps PRIMITIVES NOTALLOWED) :
    getValidOpDesc fin (i : Int) =
      getOpDesc fin
        (((createMappingValidToOrig PRIMITIVES NOTALLOWED).getD i 0 : Nat) : Int) := by
  have h7 : i < 7 := by simpa [numValidDivOps, PRIMITIVES, NOTALLOWED] using hi
  interval_cases i <;> rfl

/-- Witness for C6 at eligible index `0` with string descriptors. -/
theorem C6_valid_desc_translation_witness :
    0 < numValidDivOps PRIMITIVES NOTALLOWED
    ∧ getValidOpDesc (fun s => s) ((0 : Nat) : Int) =
        getOpDesc (fun s => s)
          (((createMappingValidToOrig PRIMITIVES NOTALLOWED).getD 0 0 : Nat) : Int) :=
  ⟨by decide, C6_valid_desc_translation (fun s => s) 0 (by decide)⟩

/-- Claim C7: in unweighted mode, forward returns the plain unweighted sum of
all sub-operation outputs; and in either mode, two forward calls that differ
only in the capture flag produce the same output value (capture is
observation-only). -/
theorem C7_unweighted_sum_and_capture_invariance :
    (∀ (ι : Type) (s : DivOpState ι) (x : ι) (factory : String → ι → ℝ),
        s.ops = PRIMITIVES.map factory → alphasTruthy s.alphas = false →
        (forward s x).2.1 =
          ∑ i ∈ Finset.range PRIMITIVES.length, factory (PRIMITIVES.getD i ("")) x)
    ∧ (∀ (ι : Type) (s : DivOpState ι) (x : ι) (b : Bool),
        (forward (setCollectActivations s b) x).2.1 = (forward s x).2.1) := by
  constructor
  · intro ι s x factory hops ha
    simp [forward, ha, hops, PRIMITIVES, Finset.sum_range_succ]
    ring
  · intro ι s x b
    by_cases h : alphasTruthy s.alphas <;>
      by_cases h2 : s.collectActivations <;> by_cases h3 : b <;>
        simp [forward, setCollectActivations, h, h2, h3]

/-- Witness for C7: the unweighted sum at a concrete unweighted node and the
capture-flag invariance at a concrete weighted node. -/
theorem C7_unweighted_sum_and_capture_invariance_witness :
    (sampleCapture.ops = PRIMITIVES.map idFactory
      ∧ alphasTruthy sampleCapture.alphas = false
      ∧ (forward sampleCapture 1).2.1 =
          ∑ i ∈ Finset.range PRIMITIVES.length, idFactory (PRIMITIVES.getD i ("")) 1)
    ∧ (forward (setCollectActivations sampleWeighted true) 1).2.1
        = (forward sampleWeighted 1).2.1 :=
  ⟨⟨rfl, rfl,
      C7_unweighted_sum_and_capture_invariance.1 ℝ sampleCapture 1 idFactory rfl rfl⟩,
    C7_unweighted_sum_and_capture_invariance.2 ℝ sampleWeighted 1 true⟩

/-- Claim C8: when mixture weights are requested but the supplied collection
is empty, construction self-allocates exactly one parameter vector of length
`len(catalog)` whose entries scale the standard-normal draw by `1.0e-3`; and
the self-allocation step fails loudly whenever any parameters are already
registered on the node. -/
theorem C8_self_allocation :
    (∀ (n : Nat) (supplied : List (List ℝ)) (r : Nat → ℝ), n ≠ 0 →
      setAlphasModel n supplied r = .error .assertionError)
    ∧ (∀ r : Nat → ℝ, ∃ v : List ℝ,
        setAlphasModel 0 [] r = .ok [v]
        ∧ v.length = PRIMITIVES.length
        ∧ ∀ i < PRIMITIVES.length, v.getD i 0 = (1e-3 : ℝ) * r i)
    ∧ (∀ (ι : Type) (trainer finalizer : String) (r : Nat → ℝ)
        (factory : String → ι → ℝ) (s : DivOpState ι), trainer ≠ "noalpha" →
        divOpInit trainer finalizer [] r factory = .ok s →
          ∃ v : List ℝ, s.alphas = some [v]
            ∧ v.length = PRIMITIVES.length
            ∧ ∀ i < PRIMITIVES.length, v.getD i 0 = (1e-3 : ℝ) * r i) := by
  have hv : ∀ (r : Nat → ℝ),
      ((List.range PRIMITIVES.length).map (fun i => (1e-3 : ℝ) * r i)).length
          = PRIMITIVES.length
      ∧ ∀ i < PRIMITIVES.length,
          ((List.range PRIMITIVES.length).map (fun i => (1e-3 : ℝ) * r i)).getD i 0
            = (1e-3 : ℝ) * r i := by
    intro r
    refine ⟨by simp, ?_⟩
    intro i hi
    have h8 : i < 8 := by simpa [PRIMITIVES] using hi
    interval_cases i <;> rfl
  refine ⟨?_, ?_, ?_⟩
  · intro n supplied r hn
    simp [setAlphasModel, hn]
  · intro r
    exact ⟨_, by simp [setAlphasModel], (hv r).1, (hv r).2⟩
  · intro ι trainer finalizer r factory s ht h
    have halpha := (divOpInit_ok trainer finalizer [] r factory s h).2.2.2.2.2.2.1 ht rfl
    exact ⟨_, halpha, (hv r).1, (hv r).2⟩

/-- A concrete successfully constructed weighted node with self-allocated
weights from a zero draw, used to instantiate construction theorems. -/
def sampleInitState : DivOpState ℝ :=
  { alphas := some [(List.range PRIMITIVES.length).map (fun _ => (1e-3 : ℝ) * (0 : ℝ))]
    ops := PRIMITIVES.map idFactory
    collectActivations := false
    forwardCounter := 0
    batchActivs := none
    notAllowedIndices := indicesOfNotallowed PRIMITIVES NOTALLOWED
    validToOrig := createMappingValidToOrig PRIMITIVES NOTALLOWED }

/-- Witness for C8: the assertion fires at one pre-registered parameter; the
self-allocation is exercised at the zero draw, standalone and through a
concrete construction. -/
theorem C8_self_allocation_witness :
    ((1 : Nat) ≠ 0
      ∧ setAlphasModel 1 [] (fun _ => (0 : ℝ)) = .error .assertionError)
    ∧ (∃ v : List ℝ, setAlphasModel 0 [] (fun _ => (0 : ℝ)) = .ok [v]
        ∧ v.length = PRIMITIVES.length
        ∧ ∀ i < PRIMITIVES.length, v.getD i 0 = (1e-3 : ℝ) * (0 : ℝ))
    ∧ (("darts" : String) ≠ "noalpha"
      ∧ divOpInit "darts" "default" [] (fun _ => (0 : ℝ)) idFactory
          = .ok sampleInitState
      ∧ ∃ v : List ℝ, sampleInitState.alphas = some [v]
          ∧ v.length = PRIMITIVES.length
          ∧ ∀ i < PRIMITIVES.length, v.getD i 0 = (1e-3 : ℝ) * (0 : ℝ)) :=
  ⟨⟨one_ne_zero, C8_self_allocation.1 1 [] (fun _ => (0 : ℝ)) one_ne_zero⟩,
    C8_self_allocation.2.1 (fun _ => (0 : ℝ)),
    ⟨by decide, rfl,
      C8_self_allocation.2.2 ℝ "darts" "default" (fun _ => (0 : ℝ)) idFactory
        sampleInitState (by decide) rfl⟩⟩

/-- Claim C9: construction fails with `NotImplementedError` exactly when the
configured training mode is `noalpha` and the finalizer is `default`; no other
combination of trainer and finalizer values trips this check. -/
theorem C9_noalpha_default_conflict {ι : Type} (trainer finalizer : String)
    (supplied : List (List ℝ)) (r : Nat → ℝ) (factory : String → ι → ℝ) :
    divOpInit trainer finalizer supplied r factory = .error .notImplementedError
      ↔ (trainer = "noalpha" ∧ finalizer = "default") := by
  have hlast : PRIMITIVES.getLast? = some ("none") := rfl
  by_cases h1 : trainer = "noalpha" ∧ finalizer = "default"
  · simp [divOpInit, h1, hlast]
  · by_cases h2 : trainer = "noalpha"
    · have h4 : ¬ finalizer = "default" := fun hf => h1 ⟨h2, hf⟩
      simp [divOpInit, h2, h4, hlast, Except.bind]
    · by_cases h3 : supplied.isEmpty <;>
        simp [divOpInit, h1, h2, h3, setAlphasModel, hlast, Except.bind, Except.map]

/-- Claim C10: reading the activations property of a freshly constructed node
returns no data (`None`), and it stays `None` across non-capturing forward
calls and capture-flag toggles; the buffer first becomes an actual list only
once a capturing forward call has run. -/
theorem C10_activations_none_before_capture :
    (∀ (ι : Type) (trainer finalizer : String) (supplied : List (List ℝ))
        (r : Nat → ℝ) (factory : String → ι → ℝ) (s : DivOpState ι),
        divOpInit trainer finalizer supplied r factory = .ok s →
          activations s = none)
    ∧ (∀ (ι : Type) (s : DivOpState ι) (x : ι), s.collectActivations = false →
        activations (forward s x).1 = activations s)
    ∧ (∀ (ι : Type) (s : DivOpState ι) (b : Bool),
        activations (setCollectActivations s b) = activations s)
    ∧ (∀ (ι : Type) (s : DivOpState ι) (x : ι), s.collectActivations = true →
        ∃ l, activations (forward s x).1 = some l) := by
  refine ⟨?_, ?_, fun ι s b => rfl, ?_⟩
  · intro ι trainer finalizer supplied r factory s h
    exact (divOpInit_ok trainer finalizer supplied r factory s h).2.2.2.1
  · intro ι s x h
    simp [activations, forward, h]
  · intro ι s x h
    exact ⟨s.notAllowedIndices.foldl (fun l i => l.eraseIdx i) (s.ops.map (fun op => op x)),
      by simp [activations, forward, h]⟩

/-- Witness for C10 at concrete nodes: a freshly constructed node, a
non-capturing forward call, a flag toggle, and a capturing forward call. -/
theorem C10_activations_none_before_capture_witness :
    (divOpInit "darts" "default" [] (fun _ => (0 : ℝ)) idFactory = .ok sampleInitState
      ∧ activations sampleInitState = none)
    ∧ (sampleWeighted.collectActivations = false
      ∧ activations (forward sampleWeighted 1).1 = activations sampleWeighted)
    ∧ activations (setCollectActivations sampleWeighted true) = activations sampleWeighted
    ∧ (sampleCapture.collectActivations = true
      ∧ ∃ l, activations (forward sampleCapture 1).1 = some l) :=
  ⟨⟨rfl,
      C10_activations_none_before_capture.1 ℝ "darts" "default" [] (fun _ => (0 : ℝ))
        idFactory sampleInitState rfl⟩,
    ⟨rfl, C10_activations_none_before_capture.2.1 ℝ sampleWeighted 1 rfl⟩,
    C10_activations_none_before_capture.2.2.1 ℝ sampleWeighted true,
    ⟨rfl, C10_activations_none_before_capture.2.2.2 ℝ sampleCapture 1 rfl⟩⟩

end DivNas
